import Mathlib

/-!
Verification of the uzspace-profile-service elevation-profile engine
(`src/index.js`) against its natural-language specification.

The embedding models JavaScript numbers by real numbers `ℝ` for geographic
math and by integers `ℤ` for pixel-grid arithmetic.  The `bresenhamLine`
while-loop of the source is embedded as a fuel-indexed recursion
(`bresLoop`); termination within the supplied fuel is proved below, so the
fuel is an artefact of the embedding, not of the algorithm.
-/

/-- Whether the stride test `stepCount % samplingInterval === 0` of
`src/index.js` line 72 holds.  In JavaScript, `s % 0` is `NaN`, and
`NaN === 0` is `false`; for a nonzero divisor, `s % k === 0` holds exactly
when `k` divides `s` (both for JavaScript truncated remainder and for the
Euclidean remainder used here, the zero test agrees). -/
def stridePick (s k : ℤ) : Bool :=
  if k = 0 then false else decide (s % k = 0)

/-- Keep the elements of a list whose position (counted from offset `s`)
passes the stride test `stridePick`.  Used to relate a sampled Bresenham
traversal to the full (interval 1) traversal. -/
def strideFilter (k : ℤ) : ℤ → List (ℤ × ℤ) → List (ℤ × ℤ)
  | _, [] => []
  | s, p :: rest => (if stridePick s k then [p] else []) ++ strideFilter k (s + 1) rest

/-- One-to-one embedding of the `while (true)` loop of `bresenhamLine`
(`src/index.js` lines 70-97), indexed by fuel.  The state is the current
pixel `(x, y)`, the error accumulator `err`, the `stepCount`, and the
accumulated `points`.  Returns `none` if the fuel runs out, otherwise the
pushed points together with the final `(x, y)` at the `break`. -/
def bresLoop (x1 y1 sx sy dx dy interval : ℤ) :
    ℕ → ℤ → ℤ → ℤ → ℤ → List (ℤ × ℤ) → Option (List (ℤ × ℤ) × ℤ × ℤ)
  | 0, _, _, _, _, _ => none
  | fuel + 1, x, y, err, stepCount, points =>
    let points' := if stridePick stepCount interval then points ++ [(x, y)] else points
    if x = x1 ∧ y = y1 then
      some (points', x, y)
    else
      let e2 := 2 * err
      let errx := if e2 > -dy then err - dy else err
      let x' := if e2 > -dy then x + sx else x
      let err' := if e2 < dx then errx + dx else errx
      let y' := if e2 < dx then y + sy else y
      bresLoop x1 y1 sx sy dx dy interval fuel x' y' err' (stepCount + 1) points'

/-- `bresenhamLine` of `src/index.js` lines 57-100, with the loop run on
fuel `|x1 - x0| + |y1 - y0| + 1` (proved sufficient below); also returns
the final `(x, y)` of the loop. -/
def bresenhamLineAux (x0 y0 x1 y1 samplingInterval : ℤ) :
    Option (List (ℤ × ℤ) × ℤ × ℤ) :=
  let dx := |x1 - x0|
  let dy := |y1 - y0|
  let sx : ℤ := if x0 < x1 then 1 else -1
  let sy : ℤ := if y0 < y1 then 1 else -1
  bresLoop x1 y1 sx sy dx dy samplingInterval (dx + dy + 1).toNat x0 y0 (dx - dy) 0 []

/-- The list of points returned by `bresenhamLine` of `src/index.js`. -/
def bresenhamLine (x0 y0 x1 y1 samplingInterval : ℤ) : List (ℤ × ℤ) :=
  ((bresenhamLineAux x0 y0 x1 y1 samplingInterval).map (fun r => r.1)).getD []

/-- JavaScript `Math.round`: round half toward positive infinity. -/
noncomputable def jsRound (x : ℝ) : ℤ := ⌊x + 1 / 2⌋

/-- Rounding to 2 decimal places, `Math.round(v * 100) / 100` as in
`src/index.js` lines 185 and 198. -/
noncomputable def round2 (x : ℝ) : ℝ := (jsRound (x * 100) : ℝ) / 100

/-- The six-coefficient affine georeferencing transform, destructured in
`src/index.js` lines 104 and 113 as
`[originX, pixelWidth, rotX, originY, rotY, pixelHeight]`. -/
structure GeoTransform where
  originX : ℝ
  pixelWidth : ℝ
  rotX : ℝ
  originY : ℝ
  rotY : ℝ
  pixelHeight : ℝ

/-- `lonLatToPixel` of `src/index.js` lines 102-109. -/
noncomputable def lonLatToPixel (lon lat : ℝ) (g : GeoTransform) : ℤ × ℤ :=
  (jsRound ((lon - g.originX) / g.pixelWidth), jsRound ((lat - g.originY) / g.pixelHeight))

/-- `pixelToLonLat` of `src/index.js` lines 111-118. -/
noncomputable def pixelToLonLat (pixelX pixelY : ℤ) (g : GeoTransform) : ℝ × ℝ :=
  (g.originX + pixelX * g.pixelWidth, g.originY + pixelY * g.pixelHeight)

/-- JavaScript `Math.atan2(y, x)` on real (finite) arguments. -/
noncomputable def jsAtan2 (y x : ℝ) : ℝ :=
  if 0 < x then Real.arctan (y / x)
  else if x < 0 then
    (if 0 ≤ y then Real.arctan (y / x) + Real.pi else Real.arctan (y / x) - Real.pi)
  else
    (if 0 < y then Real.pi / 2 else if y < 0 then -(Real.pi / 2) else 0)

/-- `haversineDistance` of `src/index.js` lines 120-135. -/
noncomputable def haversineDistance (lon1 lat1 lon2 lat2 : ℝ) : ℝ :=
  let R : ℝ := 6371000
  let dLat := (lat2 - lat1) * Real.pi / 180
  let dLon := (lon2 - lon1) * Real.pi / 180
  let lat1Rad := lat1 * Real.pi / 180
  let lat2Rad := lat2 * Real.pi / 180
  let a := Real.sin (dLat / 2) * Real.sin (dLat / 2) +
    Real.cos lat1Rad * Real.cos lat2Rad * Real.sin (dLon / 2) * Real.sin (dLon / 2)
  let c := 2 * jsAtan2 (Real.sqrt a) (Real.sqrt (1 - a))
  R * c

/-- One entry of the emitted profile (`src/index.js` lines 184-188).  The
`elevation` field models the JavaScript access `elevations[i]`: the outer
`Option` is `none` when the index is out of bounds (JavaScript
`undefined`), and the inner `Option` is `none` when the collaborator
reported no data (JavaScript `null`). -/
structure ProfilePoint where
  distance : ℝ
  elevation : Option (Option ℝ)
  coordinates : ℝ × ℝ

/-- The profile-assembly `for` loop of `src/index.js` lines 170-191,
threading the profile so far, the unrounded distance accumulator, and
`prevLonLat`; returns the final profile and accumulator. -/
noncomputable def buildLoop (elevations : List (Option ℝ)) :
    List (ℝ × ℝ) → ℕ → List ProfilePoint → ℝ → ℝ × ℝ → List ProfilePoint × ℝ
  | [], _, profile, distance, _ => (profile, distance)
  | c :: rest, i, profile, distance, prev =>
    let distance' :=
      if 0 < profile.length then distance + haversineDistance prev.1 prev.2 c.1 c.2
      else distance
    let point : ProfilePoint := ⟨round2 distance', elevations.get? i, c⟩
    buildLoop elevations rest (i + 1) (profile ++ [point]) distance' c

/-- Entry point of the assembly loop: empty profile, zero accumulator,
`prevLonLat` initialised to the request point `a`. -/
noncomputable def buildProfile (coordinates : List (ℝ × ℝ))
    (elevations : List (Option ℝ)) (a : ℝ × ℝ) : List ProfilePoint × ℝ :=
  buildLoop elevations coordinates 0 [] 0 a

/-- Specification-side description of the unrounded cumulative-distance
accumulator: given the previous coordinate and the running total, the list
of accumulator values at each subsequent coordinate. -/
noncomputable def cumSums : ℝ × ℝ → ℝ → List (ℝ × ℝ) → List ℝ
  | _, _, [] => []
  | prev, d, c :: rest =>
    (d + haversineDistance prev.1 prev.2 c.1 c.2) ::
      cumSums c (d + haversineDistance prev.1 prev.2 c.1 c.2) rest

/-- Specification-side description of the full sequence of unrounded
accumulator values: `0` for the first retained point, then cumulative
haversine sums between consecutive retained coordinates. -/
noncomputable def rawDistances : List (ℝ × ℝ) → List ℝ
  | [] => []
  | c :: rest => 0 :: cumSums c 0 rest

/-- The response body of `src/index.js` lines 193-200. -/
structure ProfileResponse where
  profile : List ProfilePoint
  totalPoints : ℕ
  samplingInterval : ℤ
  totalDistance : ℝ

/-- The request handler of `src/index.js` lines 137-207, with the two
external collaborators abstracted: the georeferencing transform obtained
from metadata retrieval is passed in as `geoTransform`, and the batched
elevation lookup as `getValues`.  File-system access and HTTP transport
are out of scope.  The only rejection in the source is the arity check of
lines 143-146. -/
noncomputable def profileHandler (a b : Option (List ℝ)) (sampling_interval : ℤ)
    (geoTransform : GeoTransform) (getValues : List (ℝ × ℝ) → List (Option ℝ)) :
    Except String ProfileResponse :=
  match a, b with
  | some av, some bv =>
    if av.length ≠ 2 ∨ bv.length ≠ 2 then
      Except.error "Two points required: a: [lon, lat], b: [lon, lat]"
    else
      let p1 := lonLatToPixel (av.getD 0 0) (av.getD 1 0) geoTransform
      let p2 := lonLatToPixel (bv.getD 0 0) (bv.getD 1 0) geoTransform
      let pixelPoints := bresenhamLine p1.1 p1.2 p2.1 p2.2 sampling_interval
      let coordinates := pixelPoints.map (fun p => pixelToLonLat p.1 p.2 geoTransform)
      let elevations := getValues coordinates
      let pd := buildProfile coordinates elevations (av.getD 0 0, av.getD 1 0)
      Except.ok ⟨pd.1, pd.1.length, sampling_interval, round2 pd.2⟩
  | _, _ => Except.error "Two points required: a: [lon, lat], b: [lon, lat]"

theorem stridePick_one (s : ℤ) : stridePick s 1 = true := by
  simp [stridePick, Int.emod_one]

theorem stridePick_zero (s : ℤ) : stridePick s 0 = false := rfl

theorem strideFilter_zero : ∀ (L : List (ℤ × ℤ)) (s : ℤ), strideFilter 0 s L = [] := by
  intro L
  induction L with
  | nil => intro s; rfl
  | cons p rest ih => intro s; simp [strideFilter, stridePick_zero, ih]

theorem strideFilter_one : ∀ (L : List (ℤ × ℤ)) (s : ℤ), strideFilter 1 s L = L := by
  intro L
  induction L with
  | nil => intro s; rfl
  | cons p rest ih => intro s; simp [strideFilter, stridePick_one, ih]

theorem bresLoop_append (x1 y1 sx sy dx dy k : ℤ) :
    ∀ (fuel : ℕ) (x y err step : ℤ) (acc : List (ℤ × ℤ)),
      bresLoop x1 y1 sx sy dx dy k fuel x y err step acc
        = (bresLoop x1 y1 sx sy dx dy k fuel x y err step []).map
            (fun r => (acc ++ r.1, r.2)) := by
  intro fuel
  induction fuel with
  | zero => intro x y err step acc; rfl
  | succ fuel ih =>
    intro x y err step acc
    simp only [bresLoop]
    by_cases hend : x = x1 ∧ y = y1
    · by_cases hp : stridePick step k <;> simp [hend, hp]
    · simp only [if_neg hend, List.nil_append]
      conv_lhs => rw [ih]
      conv_rhs => rw [ih]
      rw [Option.map_map]
      congr 1
      funext r
      by_cases hp : stridePick step k <;> simp [hp, List.append_assoc]

theorem bresLoop_stride (x1 y1 sx sy dx dy k : ℤ) :
    ∀ (fuel : ℕ) (x y err step : ℤ),
      bresLoop x1 y1 sx sy dx dy k fuel x y err step []
        = (bresLoop x1 y1 sx sy dx dy 1 fuel x y err step []).map
            (fun r => (strideFilter k step r.1, r.2)) := by
  intro fuel
  induction fuel with
  | zero => intro x y err step; rfl
  | succ fuel ih =>
    intro x y err step
    simp only [bresLoop]
    by_cases hend : x = x1 ∧ y = y1
    · by_cases hp : stridePick step k <;>
        simp [hend, hp, stridePick_one, strideFilter]
    · simp only [if_neg hend, stridePick_one, eq_self_iff_true, if_true, List.nil_append]
      conv_rhs => rw [bresLoop_append x1 y1 sx sy dx dy 1 fuel]
      conv_lhs => rw [bresLoop_append x1 y1 sx sy dx dy k fuel, ih]
      rw [Option.map_map, Option.map_map]
      congr 1

theorem bresLoop_run (x0 y0 x1 y1 sx sy dx dy k : ℤ)
    (hsx : sx = 1 ∨ sx = -1) (hsy : sy = 1 ∨ sy = -1)
    (hdx : 0 ≤ dx) (hdy : 0 ≤ dy)
    (hx1 : x1 = x0 + sx * dx) (hy1 : y1 = y0 + sy * dy) :
    ∀ (fuel : ℕ) (p q step : ℤ) (acc : List (ℤ × ℤ)),
      0 ≤ p → p ≤ dx → 0 ≤ q → q ≤ dy →
      (dx - p + (dy - q)).toNat < fuel →
      ∃ pts, bresLoop x1 y1 sx sy dx dy k fuel (x0 + sx * p) (y0 + sy * q)
          (dx - dy - p * dy + q * dx) step acc = some (pts, x1, y1) := by
  intro fuel
  induction fuel with
  | zero => intro p q step acc hp0 hpd hq0 hqd hf; exact absurd hf (Nat.not_lt_zero _)
  | succ fuel ih =>
    intro p q step acc hp0 hpd hq0 hqd hf
    by_cases hend : x0 + sx * p = x1 ∧ y0 + sy * q = y1
    · refine ⟨if stridePick step k then acc ++ [(x0 + sx * p, y0 + sy * q)] else acc, ?_⟩
      simp only [bresLoop, if_pos hend]
      rw [hend.1, hend.2]
    · have hxiff : (x0 + sx * p = x1) ↔ p = dx := by
        subst hx1; rcases hsx with h | h <;> subst h <;> constructor <;> intro hh <;> omega
      have hyiff : (y0 + sy * q = y1) ↔ q = dy := by
        subst hy1; rcases hsy with h | h <;> subst h <;> constructor <;> intro hh <;> omega
      have hne : ¬(p = dx ∧ q = dy) := fun hc => hend ⟨hxiff.2 hc.1, hyiff.2 hc.2⟩
      have hpx : 2 * (dx - dy - p * dy + q * dx) > -dy → p < dx := by
        intro hcx
        by_contra hple
        have hpeq : p = dx := by omega
        have hq1 : q + 1 ≤ dy := by
          rcases lt_or_ge q dy with h | h
          · omega
          · exact absurd ⟨hpeq, by omega⟩ hne
        have h2 : (0:ℤ) ≤ 2 * dx := by linarith
        have h1 : 2 * dx * (q + 1) ≤ 2 * dx * dy := mul_le_mul_of_nonneg_left hq1 h2
        rw [hpeq] at hcx
        nlinarith [h1]
      have hqy : 2 * (dx - dy - p * dy + q * dx) < dx → q < dy := by
        intro hcy
        by_contra hqle
        have hqeq : q = dy := by omega
        have hp1 : p + 1 ≤ dx := by
          rcases lt_or_ge p dx with h | h
          · omega
          · exact absurd ⟨by omega, hqeq⟩ hne
        have h2 : (0:ℤ) ≤ 2 * dy := by linarith
        have h1 : 2 * dy * (p + 1) ≤ 2 * dy * dx := mul_le_mul_of_nonneg_left hp1 h2
        rw [hqeq] at hcy
        nlinarith [h1]
      have hconds : (2 * (dx - dy - p * dy + q * dx) > -dy) ∨
          (2 * (dx - dy - p * dy + q * dx) < dx) := by
        by_contra hc
        push_neg at hc
        have hdx0 : dx = 0 := by linarith
        have hdy0 : dy = 0 := by linarith
        exact hne ⟨by omega, by omega⟩
      simp only [bresLoop, if_neg hend]
      by_cases hcx : 2 * (dx - dy - p * dy + q * dx) > -dy
      · by_cases hcy : 2 * (dx - dy - p * dy + q * dx) < dx
        · simp only [if_pos hcx, if_pos hcy]
          have e1 : x0 + sx * p + sx = x0 + sx * (p + 1) := by ring
          have e2 : y0 + sy * q + sy = y0 + sy * (q + 1) := by ring
          have e3 : dx - dy - p * dy + q * dx - dy + dx
              = dx - dy - (p + 1) * dy + (q + 1) * dx := by ring
          rw [e1, e2, e3]
          exact ih (p + 1) (q + 1) (step + 1) _ (by omega) (by omega)
            (by omega) (by omega) (by omega)
        · simp only [if_pos hcx, if_neg hcy]
          have e1 : x0 + sx * p + sx = x0 + sx * (p + 1) := by ring
          have e3 : dx - dy - p * dy + q * dx - dy
              = dx - dy - (p + 1) * dy + q * dx := by ring
          rw [e1, e3]
          exact ih (p + 1) q (step + 1) _ (by omega) (by omega)
            (by omega) (by omega) (by omega)
      · by_cases hcy : 2 * (dx - dy - p * dy + q * dx) < dx
        · simp only [if_neg hcx, if_pos hcy]
          have e2 : y0 + sy * q + sy = y0 + sy * (q + 1) := by ring
          have e3 : dx - dy - p * dy + q * dx + dx
              = dx - dy - p * dy + (q + 1) * dx := by ring
          rw [e2, e3]
          exact ih p (q + 1) (step + 1) _ (by omega) (by omega)
            (by omega) (by omega) (by omega)
        · exact absurd hconds (by simp [hcx, hcy])

theorem bresLoop_run_one (x0 y0 x1 y1 sx sy dx dy : ℤ)
    (hsx : sx = 1 ∨ sx = -1) (hsy : sy = 1 ∨ sy = -1)
    (hdx : 0 ≤ dx) (hdy : 0 ≤ dy)
    (hx1 : x1 = x0 + sx * dx) (hy1 : y1 = y0 + sy * dy) :
    ∀ (fuel : ℕ) (p q step : ℤ),
      0 ≤ p → p ≤ dx → 0 ≤ q → q ≤ dy →
      (dx - p + (dy - q)).toNat < fuel →
      ∃ pts, bresLoop x1 y1 sx sy dx dy 1 fuel (x0 + sx * p) (y0 + sy * q)
          (dx - dy - p * dy + q * dx) step [] = some (pts, x1, y1)
        ∧ pts.head? = some (x0 + sx * p, y0 + sy * q)
        ∧ pts.getLast? = some (x1, y1) := by
  intro fuel
  induction fuel with
  | zero => intro p q step hp0 hpd hq0 hqd hf; exact absurd hf (Nat.not_lt_zero _)
  | succ fuel ih =>
    intro p q step hp0 hpd hq0 hqd hf
    by_cases hend : x0 + sx * p = x1 ∧ y0 + sy * q = y1
    · refine ⟨[(x0 + sx * p, y0 + sy * q)], ?_, rfl, ?_⟩
      · simp only [bresLoop, if_pos hend, stridePick_one, eq_self_iff_true, if_true,
          List.nil_append]
        rw [hend.1, hend.2]
      · rw [hend.1, hend.2]; simp
    · have hxiff : (x0 + sx * p = x1) ↔ p = dx := by
        subst hx1; rcases hsx with h | h <;> subst h <;> constructor <;> intro hh <;> omega
      have hyiff : (y0 + sy * q = y1) ↔ q = dy := by
        subst hy1; rcases hsy with h | h <;> subst h <;> constructor <;> intro hh <;> omega
      have hne : ¬(p = dx ∧ q = dy) := fun hc => hend ⟨hxiff.2 hc.1, hyiff.2 hc.2⟩
      have hpx : 2 * (dx - dy - p * dy + q * dx) > -dy → p < dx := by
        intro hcx
        by_contra hple
        have hpeq : p = dx := by omega
        have hq1 : q + 1 ≤ dy := by
          rcases lt_or_ge q dy with h | h
          · omega
          · exact absurd ⟨hpeq, by omega⟩ hne
        have h2 : (0:ℤ) ≤ 2 * dx := by linarith
        have h1 : 2 * dx * (q + 1) ≤ 2 * dx * dy := mul_le_mul_of_nonneg_left hq1 h2
        rw [hpeq] at hcx
        nlinarith [h1]
      have hqy : 2 * (dx - dy - p * dy + q * dx) < dx → q < dy := by
        intro hcy
        by_contra hqle
        have hqeq : q = dy := by omega
        have hp1 : p + 1 ≤ dx := by
          rcases lt_or_ge p dx with h | h
          · omega
          · exact absurd ⟨by omega, hqeq⟩ hne
        have h2 : (0:ℤ) ≤ 2 * dy := by linarith
        have h1 : 2 * dy * (p + 1) ≤ 2 * dy * dx := mul_le_mul_of_nonneg_left hp1 h2
        rw [hqeq] at hcy
        nlinarith [h1]
      have hconds : (2 * (dx - dy - p * dy + q * dx) > -dy) ∨
          (2 * (dx - dy - p * dy + q * dx) < dx) := by
        by_contra hc
        push_neg at hc
        have hdx0 : dx = 0 := by linarith
        have hdy0 : dy = 0 := by linarith
        exact hne ⟨by omega, by omega⟩
      simp only [bresLoop, if_neg hend, stridePick_one, eq_self_iff_true, if_true,
        List.nil_append]
      by_cases hcx : 2 * (dx - dy - p * dy + q * dx) > -dy
      · by_cases hcy : 2 * (dx - dy - p * dy + q * dx) < dx
        · simp only [if_pos hcx, if_pos hcy]
          have e1 : x0 + sx * p + sx = x0 + sx * (p + 1) := by ring
          have e2 : y0 + sy * q + sy = y0 + sy * (q + 1) := by ring
          have e3 : dx - dy - p * dy + q * dx - dy + dx
              = dx - dy - (p + 1) * dy + (q + 1) * dx := by ring
          rw [e1, e2, e3]
          obtain ⟨pts', heq, hh, hl⟩ := ih (p + 1) (q + 1) (step + 1)
            (by omega) (by omega) (by omega) (by omega) (by omega)
          rw [bresLoop_append x1 y1 sx sy dx dy 1 fuel, heq]
          refine ⟨(x0 + sx * p, y0 + sy * q) :: pts', by simp, rfl, ?_⟩
          cases pts' with
          | nil => simp at hh
          | cons h t => rw [List.getLast?_cons_cons]; exact hl
        · simp only [if_pos hcx, if_neg hcy]
          have e1 : x0 + sx * p + sx = x0 + sx * (p + 1) := by ring
          have e3 : dx - dy - p * dy + q * dx - dy
              = dx - dy - (p + 1) * dy + q * dx := by ring
          rw [e1, e3]
          obtain ⟨pts', heq, hh, hl⟩ := ih (p + 1) q (step + 1)
            (by omega) (by omega) (by omega) (by omega) (by omega)
          rw [bresLoop_append x1 y1 sx sy dx dy 1 fuel, heq]
          refine ⟨(x0 + sx * p, y0 + sy * q) :: pts', by simp, rfl, ?_⟩
          cases pts' with
          | nil => simp at hh
          | cons h t => rw [List.getLast?_cons_cons]; exact hl
      · by_cases hcy : 2 * (dx - dy - p * dy + q * dx) < dx
        · simp only [if_neg hcx, if_pos hcy]
          have e2 : y0 + sy * q + sy = y0 + sy * (q + 1) := by ring
          have e3 : dx - dy - p * dy + q * dx + dx
              = dx - dy - p * dy + (q + 1) * dx := by ring
          rw [e2, e3]
          obtain ⟨pts', heq, hh, hl⟩ := ih p (q + 1) (step + 1)
            (by omega) (by omega) (by omega) (by omega) (by omega)
          rw [bresLoop_append x1 y1 sx sy dx dy 1 fuel, heq]
          refine ⟨(x0 + sx * p, y0 + sy * q) :: pts', by simp, rfl, ?_⟩
          cases pts' with
          | nil => simp at hh
          | cons h t => rw [List.getLast?_cons_cons]; exact hl
        · exact absurd hconds (by simp [hcx, hcy])

theorem bresenhamAux_one (x0 y0 x1 y1 : ℤ) :
    ∃ pts, bresenhamLineAux x0 y0 x1 y1 1 = some (pts, x1, y1)
      ∧ pts.head? = some (x0, y0) ∧ pts.getLast? = some (x1, y1) := by
  have hsx : (if x0 < x1 then (1:ℤ) else -1) = 1 ∨ (if x0 < x1 then (1:ℤ) else -1) = -1 := by
    by_cases h : x0 < x1 <;> simp [h]
  have hsy : (if y0 < y1 then (1:ℤ) else -1) = 1 ∨ (if y0 < y1 then (1:ℤ) else -1) = -1 := by
    by_cases h : y0 < y1 <;> simp [h]
  have hx1 : x1 = x0 + (if x0 < x1 then (1:ℤ) else -1) * |x1 - x0| := by
    by_cases h : x0 < x1
    · rw [if_pos h, abs_of_nonneg (by omega : (0:ℤ) ≤ x1 - x0)]; ring
    · rw [if_neg h, abs_of_nonpos (by omega : x1 - x0 ≤ 0)]; ring
  have hy1 : y1 = y0 + (if y0 < y1 then (1:ℤ) else -1) * |y1 - y0| := by
    by_cases h : y0 < y1
    · rw [if_pos h, abs_of_nonneg (by omega : (0:ℤ) ≤ y1 - y0)]; ring
    · rw [if_neg h, abs_of_nonpos (by omega : y1 - y0 ≤ 0)]; ring
  have hmeas : (|x1 - x0| - 0 + (|y1 - y0| - 0)).toNat
      < (|x1 - x0| + |y1 - y0| + 1).toNat := by
    have h1 : 0 ≤ |x1 - x0| := abs_nonneg _
    have h2 : 0 ≤ |y1 - y0| := abs_nonneg _
    omega
  obtain ⟨pts, heq, hh, hl⟩ := bresLoop_run_one x0 y0 x1 y1
    (if x0 < x1 then 1 else -1) (if y0 < y1 then 1 else -1) (|x1 - x0|) (|y1 - y0|)
    hsx hsy (abs_nonneg _) (abs_nonneg _) hx1 hy1
    ((|x1 - x0| + |y1 - y0| + 1).toNat) 0 0 0 le_rfl (abs_nonneg _) le_rfl (abs_nonneg _)
    hmeas
  have e1 : x0 + (if x0 < x1 then (1:ℤ) else -1) * 0 = x0 := by ring
  have e2 : y0 + (if y0 < y1 then (1:ℤ) else -1) * 0 = y0 := by ring
  have e3 : |x1 - x0| - |y1 - y0| - 0 * |y1 - y0| + 0 * |x1 - x0|
      = |x1 - x0| - |y1 - y0| := by ring
  rw [e1, e2, e3] at heq
  rw [e1, e2] at hh
  exact ⟨pts, by simp only [bresenhamLineAux]; exact heq, hh, hl⟩

theorem bresenhamAux_eq (x0 y0 x1 y1 k : ℤ) :
    bresenhamLineAux x0 y0 x1 y1 k
      = some (strideFilter k 0 (bresenhamLine x0 y0 x1 y1 1), x1, y1) := by
  obtain ⟨pts, heq, hh, hl⟩ := bresenhamAux_one x0 y0 x1 y1
  have hline : bresenhamLine x0 y0 x1 y1 1 = pts := by simp [bresenhamLine, heq]
  rw [hline]
  simp only [bresenhamLineAux] at heq ⊢
  rw [bresLoop_stride, heq]
  rfl

theorem bresenhamLine_eq_strideFilter (x0 y0 x1 y1 k : ℤ) :
    bresenhamLine x0 y0 x1 y1 k = strideFilter k 0 (bresenhamLine x0 y0 x1 y1 1) := by
  show ((bresenhamLineAux x0 y0 x1 y1 k).map (fun r => r.1)).getD [] = _
  rw [bresenhamAux_eq]
  rfl

theorem bresenhamLine_one_head_last (x0 y0 x1 y1 : ℤ) :
    (bresenhamLine x0 y0 x1 y1 1).head? = some (x0, y0)
    ∧ (bresenhamLine x0 y0 x1 y1 1).getLast? = some (x1, y1) := by
  obtain ⟨pts, heq, hh, hl⟩ := bresenhamAux_one x0 y0 x1 y1
  have hline : bresenhamLine x0 y0 x1 y1 1 = pts := by simp [bresenhamLine, heq]
  rw [hline]
  exact ⟨hh, hl⟩

theorem strideFilter_two_shift : ∀ (L : List (ℤ × ℤ)) (s : ℤ),
    strideFilter 2 (s + 2) L = strideFilter 2 s L := by
  intro L
  induction L with
  | nil => intro s; rfl
  | cons p rest ih =>
    intro s
    simp only [strideFilter]
    have hpick : stridePick (s + 2) 2 = stridePick s 2 := by
      have hmod : (s + 2) % 2 = s % 2 := by omega
      simp [stridePick, hmod]
    have e : s + 2 + 1 = s + 1 + 2 := by ring
    rw [hpick, e, ih]

theorem strideFilter_two_spec : ∀ L : List (ℤ × ℤ),
    ((strideFilter 2 0 L).length = (L.length + 1) / 2
      ∧ ∀ j : ℕ, (strideFilter 2 0 L).get? j = L.get? (2 * j))
    ∧ ((strideFilter 2 1 L).length = L.length / 2
      ∧ ∀ j : ℕ, (strideFilter 2 1 L).get? j = L.get? (2 * j + 1)) := by
  intro L
  induction L with
  | nil => exact ⟨⟨rfl, fun j => rfl⟩, ⟨rfl, fun j => rfl⟩⟩
  | cons a t ih =>
    obtain ⟨⟨ih0len, ih0get⟩, ih1len, ih1get⟩ := ih
    have h0 : strideFilter 2 0 (a :: t) = a :: strideFilter 2 1 t := by
      simp [strideFilter, (by decide : stridePick 0 2 = true)]
    have h1 : strideFilter 2 1 (a :: t) = strideFilter 2 0 t := by
      have h2 : strideFilter 2 2 t = strideFilter 2 0 t := by
        have h3 := strideFilter_two_shift t 0
        have e : (0:ℤ) + 2 = 2 := by norm_num
        rw [e] at h3
        exact h3
      simp [strideFilter, (by decide : stridePick 1 2 = false), h2]
    refine ⟨⟨?_, ?_⟩, ?_, ?_⟩
    · rw [h0]
      simp only [List.length_cons, ih1len]
      omega
    · intro j
      rw [h0]
      cases j with
      | zero => rfl
      | succ j =>
        have e : 2 * (j + 1) = 2 * j + 1 + 1 := by ring
        rw [e, List.get?_cons_succ, List.get?_cons_succ, ih1get j]
    · rw [h1]
      simp only [List.length_cons, ih0len]
    · intro j
      rw [h1, List.get?_cons_succ, ih0get j]

/-- C5: with sampling interval 2, the retained points are exactly the
even-indexed positions 0, 2, 4, ... of the full (interval 1) Bresenham
path, and the retained count is the ceiling of half the full count. -/
theorem bresenham_interval_two_spec (x0 y0 x1 y1 : ℤ) :
    (bresenhamLine x0 y0 x1 y1 2).length = ((bresenhamLine x0 y0 x1 y1 1).length + 1) / 2
    ∧ ∀ j : ℕ, (bresenhamLine x0 y0 x1 y1 2).get? j
        = (bresenhamLine x0 y0 x1 y1 1).get? (2 * j) := by
  rw [bresenhamLine_eq_strideFilter x0 y0 x1 y1 2]
  exact (strideFilter_two_spec _).1

/-- C9: for all integer endpoints and every sampling interval, the
`bresenhamLine` loop terminates (it does not exhaust the fuel of the
embedding), and the final pixel visited when the loop breaks is exactly
`(x1, y1)`. -/
theorem bresenham_terminates_at_endpoint (x0 y0 x1 y1 k : ℤ) :
    bresenhamLineAux x0 y0 x1 y1 k = some (bresenhamLine x0 y0 x1 y1 k, x1, y1) := by
  rw [bresenhamAux_eq]
  rw [bresenhamLine_eq_strideFilter x0 y0 x1 y1 k]

theorem bresenhamLine_interval_zero (x0 y0 x1 y1 : ℤ) :
    bresenhamLine x0 y0 x1 y1 0 = [] := by
  rw [bresenhamLine_eq_strideFilter, strideFilter_zero]

/-- C10: with sampling interval 0 the loop still terminates at `(x1, y1)`
without any error, but the stride test `stepCount % 0 === 0` never holds
(it is `NaN === 0` in JavaScript), so no point at all is retained - not
even the start pixel. -/
theorem bresenham_interval_zero_empty (x0 y0 x1 y1 : ℤ) :
    bresenhamLineAux x0 y0 x1 y1 0 = some ([], x1, y1)
    ∧ bresenhamLine x0 y0 x1 y1 0 = [] := by
  constructor
  · rw [bresenhamAux_eq, strideFilter_zero]
  · exact bresenhamLine_interval_zero x0 y0 x1 y1

/-- C4 counterexample: the full traversal from (0,0) to (4,2) is not the
reverse of the full traversal from (4,2) to (0,0), and the two traversals
do not even visit the same set of pixels: (1,0) is visited only in the
forward direction. -/
theorem bresenham_not_direction_symmetric :
    bresenhamLine 0 0 4 2 1 ≠ (bresenhamLine 4 2 0 0 1).reverse
    ∧ (1, 0) ∈ bresenhamLine 0 0 4 2 1 ∧ (1, 0) ∉ bresenhamLine 4 2 0 0 1 := by
  decide

/-- C4 amended: for every pair of endpoints, the traversal A to B and the
reverse of the traversal B to A agree on their first element (the pixel of
A) and their last element (the pixel of B); the full sequences, and even
the visited pixel sets, may otherwise differ. -/
theorem bresenham_reverse_same_endpoints (x0 y0 x1 y1 : ℤ) :
    (bresenhamLine x0 y0 x1 y1 1).head? = some (x0, y0)
    ∧ (bresenhamLine x0 y0 x1 y1 1).getLast? = some (x1, y1)
    ∧ ((bresenhamLine x1 y1 x0 y0 1).reverse).head? = some (x0, y0)
    ∧ ((bresenhamLine x1 y1 x0 y0 1).reverse).getLast? = some (x1, y1) := by
  obtain ⟨h1, h2⟩ := bresenhamLine_one_head_last x0 y0 x1 y1
  obtain ⟨h3, h4⟩ := bresenhamLine_one_head_last x1 y1 x0 y0
  refine ⟨h1, h2, ?_, ?_⟩
  · rw [List.head?_reverse]; exact h4
  · rw [List.getLast?_reverse]; exact h3

theorem floor_one_half : ⌊(1:ℝ) / 2⌋ = 0 := by
  rw [Int.floor_eq_zero_iff]
  constructor <;> norm_num

theorem jsRound_intCast (n : ℤ) : jsRound (n : ℝ) = n := by
  unfold jsRound
  rw [Int.floor_int_add, floor_one_half]
  omega

theorem jsRound_zero : jsRound 0 = 0 := by
  have h : ((0:ℤ) : ℝ) = (0:ℝ) := by norm_num
  rw [← h, jsRound_intCast]

theorem round2_zero : round2 0 = 0 := by
  unfold round2
  rw [(by norm_num : (0:ℝ) * 100 = ((0:ℤ) : ℝ)), jsRound_intCast]
  norm_num

theorem round2_mono {x y : ℝ} (h : x ≤ y) : round2 x ≤ round2 y := by
  unfold round2 jsRound
  have h1 : x * 100 + 1 / 2 ≤ y * 100 + 1 / 2 := by linarith
  have h2 : ⌊x * 100 + 1 / 2⌋ ≤ ⌊y * 100 + 1 / 2⌋ := Int.floor_le_floor h1
  have h3 : ((⌊x * 100 + 1 / 2⌋ : ℤ) : ℝ) ≤ ((⌊y * 100 + 1 / 2⌋ : ℤ) : ℝ) := by
    exact_mod_cast h2
  linarith

/-- C3: for every transform with nonzero pixel sizes and every integer
pixel coordinate, converting pixel to geographic coordinates and back
yields the same pixel coordinate (round-trip through the pixel center). -/
theorem pixel_roundtrip (g : GeoTransform) (x y : ℤ)
    (hw : g.pixelWidth ≠ 0) (hh : g.pixelHeight ≠ 0) :
    lonLatToPixel (pixelToLonLat x y g).1 (pixelToLonLat x y g).2 g = (x, y) := by
  unfold lonLatToPixel pixelToLonLat
  have e1 : (g.originX + x * g.pixelWidth - g.originX) / g.pixelWidth = (x : ℝ) := by
    field_simp
  have e2 : (g.originY + y * g.pixelHeight - g.originY) / g.pixelHeight = (y : ℝ) := by
    field_simp
  simp only [e1, e2, jsRound_intCast]

/-- Witness for C3 at the concrete transform (10, 2, 0, 20, 0, -3) and
pixel (5, 7). -/
theorem pixel_roundtrip_witness :
    ((GeoTransform.mk 10 2 0 20 0 (-3)).pixelWidth ≠ 0
      ∧ (GeoTransform.mk 10 2 0 20 0 (-3)).pixelHeight ≠ 0)
    ∧ lonLatToPixel (pixelToLonLat 5 7 (GeoTransform.mk 10 2 0 20 0 (-3))).1
        (pixelToLonLat 5 7 (GeoTransform.mk 10 2 0 20 0 (-3))).2
        (GeoTransform.mk 10 2 0 20 0 (-3)) = (5, 7) :=
  ⟨⟨by norm_num, by norm_num⟩,
    pixel_roundtrip (GeoTransform.mk 10 2 0 20 0 (-3)) 5 7 (by norm_num) (by norm_num)⟩

theorem jsAtan2_nonneg {y x : ℝ} (hy : 0 ≤ y) (hx : 0 ≤ x) : 0 ≤ jsAtan2 y x := by
  unfold jsAtan2
  by_cases h1 : 0 < x
  · rw [if_pos h1]
    have hmono := Real.arctan_strictMono.monotone (div_nonneg hy h1.le)
    rwa [Real.arctan_zero] at hmono
  · rw [if_neg h1, if_neg (not_lt.2 hx)]
    by_cases h3 : 0 < y
    · rw [if_pos h3]
      have := Real.pi_pos
      linarith
    · rw [if_neg h3, if_neg (not_lt.2 hy)]

theorem haversineDistance_nonneg (lon1 lat1 lon2 lat2 : ℝ) :
    0 ≤ haversineDistance lon1 lat1 lon2 lat2 := by
  simp only [haversineDistance]
  refine mul_nonneg (by norm_num) (mul_nonneg (by norm_num) ?_)
  exact jsAtan2_nonneg (Real.sqrt_nonneg _) (Real.sqrt_nonneg _)

theorem cons_getLast? : ∀ (l : List ℝ) (d : ℝ), (d :: l).getLast? = some (l.getLastD d) := by
  intro l
  induction l with
  | nil => intro d; rfl
  | cons a t ih =>
    intro d
    rw [List.getLast?_cons_cons, ih a, List.getLastD_cons]

theorem map_getLast?_eq (f : ℝ → ℝ) : ∀ l : List ℝ, (l.map f).getLast? = l.getLast?.map f := by
  intro l
  induction l with
  | nil => rfl
  | cons a t ih =>
    cases t with
    | nil => rfl
    | cons b t2 =>
      simp only [List.map_cons] at ih ⊢
      rw [List.getLast?_cons_cons, List.getLast?_cons_cons]
      exact ih

theorem cumSums_chain : ∀ (coords : List (ℝ × ℝ)) (prev : ℝ × ℝ) (d : ℝ),
    List.Chain' (· ≤ ·) (d :: cumSums prev d coords) := by
  intro coords
  induction coords with
  | nil => intro prev d; simp [cumSums]
  | cons c rest ih =>
    intro prev d
    simp only [cumSums]
    rw [List.chain'_cons]
    refine ⟨?_, ih c _⟩
    have := haversineDistance_nonneg prev.1 prev.2 c.1 c.2
    linarith

theorem buildLoop_go (elevs : List (Option ℝ)) :
    ∀ (coords : List (ℝ × ℝ)) (i : ℕ) (P : List ProfilePoint) (d : ℝ) (prev : ℝ × ℝ),
      P ≠ [] →
      ((buildLoop elevs coords i P d prev).1.map ProfilePoint.distance
          = P.map ProfilePoint.distance ++ (cumSums prev d coords).map round2)
      ∧ (buildLoop elevs coords i P d prev).2 = (cumSums prev d coords).getLastD d := by
  intro coords
  induction coords with
  | nil => intro i P d prev hP; simp [buildLoop, cumSums]
  | cons c rest ih =>
    intro i P d prev hP
    have hlen : 0 < P.length := List.length_pos.2 hP
    simp only [buildLoop, if_pos hlen, cumSums]
    obtain ⟨ih1, ih2⟩ := ih (i + 1)
      (P ++ [⟨round2 (d + haversineDistance prev.1 prev.2 c.1 c.2), elevs.get? i, c⟩])
      (d + haversineDistance prev.1 prev.2 c.1 c.2) c (by simp)
    constructor
    · rw [ih1]
      simp [List.map_append, List.append_assoc]
    · rw [ih2, List.getLastD_cons]

theorem buildProfile_dists (coords : List (ℝ × ℝ)) (elevs : List (Option ℝ)) (a : ℝ × ℝ) :
    ((buildProfile coords elevs a).1.map ProfilePoint.distance
        = (rawDistances coords).map round2)
    ∧ (buildProfile coords elevs a).2 = (rawDistances coords).getLastD 0 := by
  cases coords with
  | nil => exact ⟨rfl, rfl⟩
  | cons c rest =>
    simp only [buildProfile, buildLoop, List.length_nil, lt_self_iff_false, if_false,
      List.nil_append, rawDistances]
    obtain ⟨h1, h2⟩ := buildLoop_go elevs rest (0 + 1) [⟨round2 0, elevs.get? 0, c⟩] 0 c
      (by simp)
    constructor
    · rw [h1]
      simp
    · rw [h2, List.getLastD_cons]

/-- C2: for every non-empty coordinate list (hence every valid input
producing a non-empty profile), the reported cumulative distances of the
assembled profile are non-decreasing and the first ProfilePoint's distance
is exactly 0. -/
theorem profile_distances_monotone_first_zero
    (coords : List (ℝ × ℝ)) (elevs : List (Option ℝ)) (a : ℝ × ℝ)
    (hne : coords ≠ []) :
    List.Chain' (· ≤ ·) ((buildProfile coords elevs a).1.map ProfilePoint.distance)
    ∧ ((buildProfile coords elevs a).1.map ProfilePoint.distance).head? = some 0 := by
  obtain ⟨h1, _⟩ := buildProfile_dists coords elevs a
  rw [h1]
  cases coords with
  | nil => exact absurd rfl hne
  | cons c rest =>
    constructor
    · simp only [rawDistances]
      rw [List.chain'_map]
      exact List.Chain'.imp (fun a b hab => round2_mono hab) (cumSums_chain rest c 0)
    · simp only [rawDistances, List.map_cons, List.head?_cons]
      rw [round2_zero]

/-- Witness for C2 at a concrete one-point input. -/
theorem profile_distances_monotone_first_zero_witness :
    ([((0:ℝ), (0:ℝ))] ≠ ([] : List (ℝ × ℝ)))
    ∧ (List.Chain' (· ≤ ·)
        ((buildProfile [((0:ℝ), (0:ℝ))] [] ((0:ℝ), (0:ℝ))).1.map ProfilePoint.distance)
      ∧ ((buildProfile [((0:ℝ), (0:ℝ))] [] ((0:ℝ), (0:ℝ))).1.map
          ProfilePoint.distance).head? = some 0) :=
  ⟨by simp,
    profile_distances_monotone_first_zero [((0:ℝ), (0:ℝ))] [] ((0:ℝ), (0:ℝ)) (by simp)⟩

/-- C6: the per-point reported distances are exactly the unrounded
running accumulator values, each rounded to 2 decimals only at reporting
time; and for every non-empty profile the last reported distance equals
the rounded final accumulator - precisely the summary totalDistance field
`round2 pd.2` emitted by the handler. -/
theorem profile_accumulator_unrounded_last_total
    (coords : List (ℝ × ℝ)) (elevs : List (Option ℝ)) (a : ℝ × ℝ)
    (hne : coords ≠ []) :
    ((buildProfile coords elevs a).1.map ProfilePoint.distance
        = (rawDistances coords).map round2)
    ∧ ((buildProfile coords elevs a).1.map ProfilePoint.distance).getLast?
        = some (round2 (buildProfile coords elevs a).2) := by
  obtain ⟨h1, h2⟩ := buildProfile_dists coords elevs a
  refine ⟨h1, ?_⟩
  rw [h1, h2]
  cases coords with
  | nil => exact absurd rfl hne
  | cons c rest =>
    simp only [rawDistances]
    rw [map_getLast?_eq, cons_getLast?, List.getLastD_cons]
    rfl

/-- Witness for C6 at a concrete two-point input. -/
theorem profile_accumulator_unrounded_last_total_witness :
    ([((0:ℝ), (0:ℝ)), ((1:ℝ), (0:ℝ))] ≠ ([] : List (ℝ × ℝ)))
    ∧ (((buildProfile [((0:ℝ), (0:ℝ)), ((1:ℝ), (0:ℝ))] [] ((0:ℝ), (0:ℝ))).1.map
          ProfilePoint.distance
        = (rawDistances [((0:ℝ), (0:ℝ)), ((1:ℝ), (0:ℝ))]).map round2)
      ∧ (((buildProfile [((0:ℝ), (0:ℝ)), ((1:ℝ), (0:ℝ))] [] ((0:ℝ), (0:ℝ))).1.map
          ProfilePoint.distance).getLast?
        = some (round2 (buildProfile [((0:ℝ), (0:ℝ)), ((1:ℝ), (0:ℝ))] []
            ((0:ℝ), (0:ℝ))).2))) :=
  ⟨by simp,
    profile_accumulator_unrounded_last_total [((0:ℝ), (0:ℝ)), ((1:ℝ), (0:ℝ))] []
      ((0:ℝ), (0:ℝ)) (by simp)⟩

/-- C7 (code behaviour at the failing input): when the elevation list is
shorter than the coordinate list (two coordinates, one elevation), the
assembler does not fail with any error: it still emits a full two-point
profile, and the second point's elevation is the out-of-bounds access
(JavaScript `undefined`, modelled as `none`) - the arrays are silently
misaligned. -/
theorem short_elevations_not_detected :
    (buildProfile [((0:ℝ), (0:ℝ)), ((1:ℝ), (0:ℝ))] [some 5] ((0:ℝ), (0:ℝ))).1.length = 2
    ∧ ((buildProfile [((0:ℝ), (0:ℝ)), ((1:ℝ), (0:ℝ))] [some 5]
        ((0:ℝ), (0:ℝ))).1.get? 1).map ProfilePoint.elevation = some none := by
  constructor <;> simp [buildProfile, buildLoop]

/-- C8 (code behaviour): the handler never validates the transform - for
EVERY GeoTransform, including one whose pixelWidth and pixelHeight are
zero, any request passing the arity check proceeds through `lonLatToPixel`
(whose divisors are then zero) and completes with a success response;
nothing rejects the transform before the pixel conversions use it. -/
theorem handler_ignores_transform (av bv : List ℝ) (i : ℤ) (t : GeoTransform)
    (f : List (ℝ × ℝ) → List (Option ℝ))
    (ha : av.length = 2) (hb : bv.length = 2) :
    ∃ r, profileHandler (some av) (some bv) i t f = Except.ok r := by
  have hcond : ¬(av.length ≠ 2 ∨ bv.length ≠ 2) := by simp [ha, hb]
  simp only [profileHandler]
  rw [if_neg hcond]
  exact ⟨_, rfl⟩

/-- Witness for C8: a well-formed request against the all-zero transform
(zero pixelWidth and pixelHeight) is not rejected. -/
theorem handler_ignores_transform_witness :
    ([(5:ℝ), 5].length = 2 ∧ [(7:ℝ), 7].length = 2)
    ∧ ∃ r, profileHandler (some [(5:ℝ), 5]) (some [(7:ℝ), 7]) 1
        (GeoTransform.mk 0 0 0 0 0 0) (fun _ => []) = Except.ok r :=
  ⟨⟨by simp, by simp⟩,
    handler_ignores_transform [(5:ℝ), 5] [(7:ℝ), 7] 1 (GeoTransform.mk 0 0 0 0 0 0)
      (fun _ => []) (by simp) (by simp)⟩

/-- C1 (code behaviour at the failing input): a request with two valid
endpoints and sampling_interval = 0 is NOT rejected as an InputError: the
handler runs to completion (after the metadata and elevation collaborators
have been consulted) and answers success with an empty profile. -/
theorem interval_zero_not_rejected :
    profileHandler (some [(0:ℝ), 0]) (some [(3:ℝ), 0]) 0 (GeoTransform.mk 0 1 0 0 0 (-1))
      (fun _ => []) = Except.ok (ProfileResponse.mk [] 0 0 0) := by
  have hcond : ¬(([(0:ℝ), 0].length ≠ 2) ∨ ([(3:ℝ), 0].length ≠ 2)) := by simp
  simp only [profileHandler]
  rw [if_neg hcond]
  have h3 : jsRound 3 = 3 := by
    rw [show (3:ℝ) = ((3:ℤ):ℝ) by norm_num]
    exact jsRound_intCast 3
  have hp1 : lonLatToPixel (List.getD [(0:ℝ), 0] 0 0) (List.getD [(0:ℝ), 0] 1 0)
      (GeoTransform.mk 0 1 0 0 0 (-1)) = (0, 0) := by
    simp [lonLatToPixel, jsRound_zero]
  have hp2 : lonLatToPixel (List.getD [(3:ℝ), 0] 0 0) (List.getD [(3:ℝ), 0] 1 0)
      (GeoTransform.mk 0 1 0 0 0 (-1)) = (3, 0) := by
    simp [lonLatToPixel, jsRound_zero, h3]
  rw [hp1, hp2]
  simp [bresenhamLine_interval_zero, buildProfile, buildLoop, round2_zero]
